import Mathlib

/-!
Shallow embedding of the ESPKenisis ground-control device-communication core:
the two-variant channel model (`models/channel.py`), the target model and
override-payload encoder (`models/target.py`), and the message dispatcher and
targets_update registry merge (`core/manager.py`).

Python dicts are modelled extensionally as lookup functions where only lookup
and membership are observed (the target registry, a target's custom-data bag,
the payload channel map), and as association lists where the source iterates
them or checks emptiness (a discrete channel's state-value table, a target's
channel map, decoded JSON objects).  Machine floats appear only as inert JSON
payload values and as the never-written `battery_voltage` field; they are kept
structurally (mantissa/exponent) respectively as `Rat`.
-/

/-- A decoded JSON value as the wire protocol uses inside a target entry:
null, booleans, integers, decimal numbers (kept structurally as mantissa and
decimal-exponent, e.g. 7.4 is `jdec 74 1`), strings, and numeric arrays
(inbound channel arrays). -/
inductive JVal where
  | jnull : JVal
  | jbool : Bool → JVal
  | jint : Int → JVal
  | jdec : Int → Nat → JVal
  | jstr : String → JVal
  | jarr : List Int → JVal
deriving DecidableEq, Repr

/-- One target entry object of a targets_update batch: its key/value pairs. -/
abbrev Entry := List (String × JVal)

/-- Dict lookup on a decoded entry (`data["k"]` / `"k" in data`). -/
def getF (e : Entry) (k : String) : Option JVal :=
  (e.find? (fun p => p.1 == k)).map (fun p => p.2)

/-- A top-level field value of a decoded message: either a scalar/array value
or an array of entry objects (the shape of the `targets` field). -/
inductive TopVal where
  | prim : JVal → TopVal
  | entries : List Entry → TopVal
deriving DecidableEq, Repr

/-- A decoded top-level message object. -/
abbrev Msg := List (String × TopVal)

/-- Dict lookup on a decoded top-level message. -/
def getFM (m : Msg) (k : String) : Option TopVal :=
  (m.find? (fun p => p.1 == k)).map (fun p => p.2)

/-- The `ChannelState` enum from `models/channel.py`. -/
inductive ChannelState where
  | DEFAULT : ChannelState
  | STATE_1 : ChannelState
  | STATE_2 : ChannelState
  | STATE_3 : ChannelState
deriving DecidableEq, Repr

/-- The numeric encoding Python's `auto()` assigns the enum members, i.e. what
`channel.state.value` evaluates to (1-based member index). -/
def ChannelState.value : ChannelState → Int
  | .DEFAULT => 1
  | .STATE_1 => 2
  | .STATE_2 => 3
  | .STATE_3 => 4

/-- The `ContinuousChannel` dataclass fields (base `Channel` fields inlined). -/
structure ContinuousChannel where
  name : String
  channel_number : Nat
  value : Int
  min_value : Int
  max_value : Int
  default_value : Int
  override_value : Option Int
deriving DecidableEq, Repr

/-- Construction `ContinuousChannel(name, num, min_value, max_value, default_value)` with
its `__post_init__` applied: `value` starts at the default, no override. -/
def mkContinuousChannel (name : String) (num : Nat) (mn mx df : Int) : ContinuousChannel :=
  { name := name, channel_number := num, value := df, min_value := mn,
    max_value := mx, default_value := df, override_value := none }

def ContinuousChannel.reset_to_default (c : ContinuousChannel) : ContinuousChannel :=
  { c with override_value := none, value := c.default_value }

def ContinuousChannel.set_override (c : ContinuousChannel) (v : Int) : ContinuousChannel :=
  let clamped_value := max c.min_value (min v c.max_value)
  { c with override_value := some clamped_value, value := clamped_value }

/-- The `DiscreteChannel` dataclass fields (base `Channel` fields inlined); the
state-value dict is an association list so the `__post_init__` emptiness check
stays literal. -/
structure DiscreteChannel where
  name : String
  channel_number : Nat
  value : Int
  states : List String
  state : ChannelState
  state_values : List (ChannelState × Int)
deriving DecidableEq, Repr

/-- The table `__post_init__` installs when no state values were provided. -/
def defaultStateValues : List (ChannelState × Int) :=
  [(.DEFAULT, 0), (.STATE_1, 1000), (.STATE_2, 1500), (.STATE_3, 2000)]

/-- Construction `DiscreteChannel(name, num, states, state_values)` with `__post_init__`
applied (an empty table is replaced by the default table). -/
def mkDiscreteChannel (name : String) (num : Nat) (states : List String)
    (sv : List (ChannelState × Int)) : DiscreteChannel :=
  { name := name, channel_number := num, value := 0, states := states,
    state := .DEFAULT, state_values := if sv.isEmpty then defaultStateValues else sv }

/-- Lookup in the state-value dict (`state in self.state_values` and
`self.state_values[state]`). -/
def lookupSV (sv : List (ChannelState × Int)) (s : ChannelState) : Option Int :=
  (sv.find? (fun p => p.1 == s)).map (fun p => p.2)

def DiscreteChannel.set_state (c : DiscreteChannel) (s : ChannelState) : DiscreteChannel :=
  match lookupSV c.state_values s with
  | some v => { c with state := s, value := v }
  | none => c

/-- The two channel variants a target's channel dict holds. -/
inductive Channel where
  | continuous : ContinuousChannel → Channel
  | discrete : DiscreteChannel → Channel
deriving DecidableEq, Repr

/-- Base-class `Channel.set_value`: writes the raw value field directly. -/
def Channel.set_value : Channel → Int → Channel
  | .continuous c, v => .continuous { c with value := v }
  | .discrete d, v => .discrete { d with value := v }

/-- The loop in `update_from_data` over an inbound channels array:
`for i, value in enumerate(channel_array, 1)`, index `i` updates the channel
numbered `i` when that number is a key; other indices are ignored. -/
def setChannelsAux (chs : List (Nat × Channel)) (i : Nat) : List Int → List (Nat × Channel)
  | [] => chs
  | v :: vs =>
      setChannelsAux (chs.map (fun p => if p.1 = i then (p.1, p.2.set_value v) else p)) (i + 1) vs

def setChannels (chs : List (Nat × Channel)) (vals : List Int) : List (Nat × Channel) :=
  setChannelsAux chs 1 vals

/-- The `Target` dataclass from `models/target.py` (instance fields only). -/
structure Target where
  id : JVal
  mac : List Nat
  channels : List (Nat × Channel)
  override_enabled : Bool
  last_update_time : Nat
  signal_strength : Int
  battery_voltage : Rat
  status : String
  custom_data : String → Option JVal

/-- The fixed channel layout `Target.__post_init__` installs. -/
def defaultChannels : List (Nat × Channel) :=
  [ (1, .continuous (mkContinuousChannel "Aileron" 1 1000 2000 1500)),
    (2, .continuous (mkContinuousChannel "Elevator" 2 1000 2000 1500)),
    (3, .continuous (mkContinuousChannel "Throttle" 3 1000 2000 1000)),
    (4, .continuous (mkContinuousChannel "Rudder" 4 1000 2000 1500)),
    (5, .discrete (mkDiscreteChannel "Arm" 5 ["ARMED", "DISARMED"] [])),
    (6, .discrete (mkDiscreteChannel "Kill" 6 ["KILLED", "ACTIVE"] [])),
    (7, .discrete (mkDiscreteChannel "Flight Mode" 7 ["MANUAL", "POSITION", "MISSION"] [])),
    (8, .discrete (mkDiscreteChannel "Offboard" 8 ["ENABLED", "DISABLED"] [])) ]

/-- Construction `Target(id=tid)` with `__post_init__` applied. -/
def mkTarget (tid : JVal) : Target :=
  { id := tid, mac := List.replicate 6 0, channels := defaultChannels,
    override_enabled := false, last_update_time := 0, signal_strength := 0,
    battery_voltage := 0, status := "Unknown", custom_data := fun _ => none }

/-- Dict assignment `custom_data[k] = v` on the extensional custom-data bag. -/
def cdIns (d : String → Option JVal) (k : String) (v : JVal) : String → Option JVal :=
  fun q => if q = k then some v else d q

/-- The key filter of the catch-all loop at the end of `update_from_data`. -/
def excludedKey (k : String) : Bool :=
  ["id", "channels", "name", "mac", "connection_state", "last_successful_send"].contains k

/-- The effect of one `update_from_data` call on the custom-data bag, in source
order: the `name` / `mac` / `connection_state` copies, then the catch-all loop
over every non-excluded key. -/
def cdOf (e : Entry) (cd0 : String → Option JVal) : String → Option JVal :=
  let cd1 := match getF e "name" with
    | some v => cdIns cd0 "name" v
    | none => cd0
  let cd2 := match getF e "mac" with
    | some v => cdIns cd1 "mac" v
    | none => cd1
  let cd3 := match getF e "connection_state" with
    | some v => cdIns cd2 "connection_state" v
    | none => cd2
  e.foldl (fun cd p => if excludedKey p.1 then cd else cdIns cd p.1 p.2) cd3

/-- The effect of one `update_from_data` call on the channel dict: applied only
when the entry carries a `channels` field that is a list. -/
def chOf (e : Entry) (chs : List (Nat × Channel)) : List (Nat × Channel) :=
  match getF e "channels" with
  | some (.jarr vals) => setChannels chs vals
  | _ => chs

/-- Method `Target.update_from_data`: stamps the update time, merges the entry into
the custom-data bag and the channel dict.  The custom-data writes and the
channel writes touch disjoint fields, so they are grouped per field here in
the order the source performs them. -/
def Target.update_from_data (t : Target) (data : Entry) (now : Nat) : Target :=
  { t with last_update_time := now,
           custom_data := cdOf data t.custom_data,
           channels := chOf data t.channels }

/-- The `set_override` command payload `get_override_payload` builds; the
channel map is extensional (channel-number string to numeric value). -/
structure OverridePayload where
  id : JVal
  override : Bool
  channels : String → Option Int

/-- Dict assignment on the payload channel map. -/
def pcIns (f : String → Option Int) (k : String) (v : Int) : String → Option Int :=
  fun q => if q = k then some v else f q

/-- Method `Target.get_override_payload`: when override is armed, walk the channel
dict; a discrete channel in a non-DEFAULT state contributes
`channel.state.value` (the enum encoding), a continuous channel with an
override present contributes `channel.value`. -/
def Target.get_override_payload (t : Target) : OverridePayload :=
  { id := t.id,
    override := t.override_enabled,
    channels :=
      if t.override_enabled then
        t.channels.foldl
          (fun acc p =>
            match p.2 with
            | .discrete d =>
                if d.state ≠ ChannelState.DEFAULT then pcIns acc (toString p.1) d.state.value
                else acc
            | .continuous c =>
                match c.override_value with
                | some _ => pcIns acc (toString p.1) c.value
                | none => acc)
          (fun _ => none)
      else fun _ => none }

/-- The manager's target registry (`self.targets`), extensional by target id. -/
abbrev Registry := JVal → Option Target

/-- Observable callback-bus traffic: a verbatim forward of an unrecognized
message to the update callback, the aggregate batch notification
`{type: targets_update, targets: ids}`, or an error-callback invocation. -/
inductive Event where
  | updateRaw : Msg → Event
  | updateAggregate : List JVal → Event
  | errorCb : TopVal → Event

/-- The per-entry loop of `_handle_targets_update`: entries without an `id`
are skipped; otherwise the target is looked up or created, updated in place,
and its id appended to the touched list. -/
def processEntries (reg : Registry) (entries : List Entry) (now : Nat) : Registry × List JVal :=
  entries.foldl
    (fun acc e =>
      match getF e "id" with
      | none => acc
      | some tid =>
          let t := match acc.1 tid with
            | some t => t
            | none => mkTarget tid
          let t := t.update_from_data e now
          (fun q => if q = tid then some t else acc.1 q, acc.2 ++ [tid]))
    (reg, [])

/-- Handler `_handle_targets_update` on an extracted batch: process every entry, then
emit one aggregate notification iff at least one target was touched. -/
def handleTargetsUpdateEntries (reg : Registry) (entries : List Entry) (now : Nat) :
    Registry × List Event :=
  let r := processEntries reg entries now
  (r.1, if r.2.isEmpty then [] else [Event.updateAggregate r.2])

/-- Handler `_handle_targets_update` on the decoded message: a missing `targets` field
is a logged no-op. -/
def handleTargetsUpdate (reg : Registry) (data : Msg) (now : Nat) : Registry × List Event :=
  match getFM data "targets" with
  | some (.entries l) => handleTargetsUpdateEntries reg l now
  | _ => (reg, [])

/-- Handler `_handle_error`: forwards the `message` field to the error callback. -/
def handleError (reg : Registry) (data : Msg) : Registry × List Event :=
  match getFM data "message" with
  | some v => (reg, [Event.errorCb v])
  | none => (reg, [])

/-- Dispatcher `_process_message`: no `type` field is a silent no-op; the two registered
handlers are `targets_update` and `error`; any other type tag is forwarded
verbatim to the default update callback. -/
def process_message (reg : Registry) (data : Msg) (now : Nat) : Registry × List Event :=
  match getFM data "type" with
  | none => (reg, [])
  | some tv =>
      if tv = TopVal.prim (.jstr "targets_update") then handleTargetsUpdate reg data now
      else if tv = TopVal.prim (.jstr "error") then handleError reg data
      else (reg, [Event.updateRaw data])

/-- A target with the update timestamp erased, for stating idempotence up to
`last_update_time`. -/
def stripT (t : Target) : Target := { t with last_update_time := 0 }

/-- A registry with every target's update timestamp erased. -/
def stripReg (r : Registry) : Registry := fun q => (r q).map stripT

/-- A channel deviates from default when the override encoder emits it:
discrete with a non-DEFAULT state, or continuous with an override present. -/
def deviatesFromDefault : Channel → Prop
  | .discrete d => d.state ≠ ChannelState.DEFAULT
  | .continuous c => c.override_value ≠ none

/-- The continuous-channel invariant of the spec: the value is within range
and, absent an override, equals the default. -/
def contInv (c : ContinuousChannel) : Prop :=
  c.min_value ≤ c.value ∧ c.value ≤ c.max_value ∧
    (c.override_value = none → c.value = c.default_value)

/-- Target 3 from the override scenario: override armed and channel 6 (Kill)
set to its second named state. -/
def target3 : Target :=
  { mkTarget (.jint 3) with
    override_enabled := true,
    channels := (mkTarget (.jint 3)).channels.map
      (fun p => match p with
        | (6, .discrete d) => (6, .discrete (d.set_state .STATE_2))
        | q => q) }

instance decContInv (c : ContinuousChannel) : Decidable (contInv c) := by
  unfold contInv; infer_instance

instance decDeviates (ch : Channel) : Decidable (deviatesFromDefault ch) := by
  cases ch <;> unfold deviatesFromDefault <;> infer_instance

/-- The entry of the connect scenario: `{id: 3, signal: 80, battery: 7.4}`. -/
def c2Entry : Entry := [("id", .jint 3), ("signal", .jint 80), ("battery", .jdec 74 1)]

/-- The registry after handling a targets_update batch holding only `c2Entry`,
starting from the empty registry created at connect time. -/
def c2Registry : Registry := (handleTargetsUpdateEntries (fun _ => none) [c2Entry] 5).1

/-- The value the override encoder would emit for one channel: the enum
encoding of a non-DEFAULT discrete state, or the current value of a
continuous channel with an override present. -/
def encodeChannel : Channel → Option Int
  | .discrete d => if d.state ≠ ChannelState.DEFAULT then some d.state.value else none
  | .continuous c =>
      match c.override_value with
      | some _ => some c.value
      | none => none

/-- One step of the override encoder's fold over the channel dict. -/
def payloadStep (acc : String → Option Int) (p : Nat × Channel) : String → Option Int :=
  match p.2 with
  | .discrete d =>
      if d.state ≠ ChannelState.DEFAULT then pcIns acc (toString p.1) d.state.value else acc
  | .continuous c =>
      match c.override_value with
      | some _ => pcIns acc (toString p.1) c.value
      | none => acc

/-- The last emitted value for a given key along the encoder's walk of the
channel dict (later entries overwrite earlier ones). -/
def lastHit : List (Nat × Channel) → String → Option Int
  | [], _ => none
  | p :: rest, s =>
      match lastHit rest s with
      | some v => some v
      | none => if toString p.1 = s then encodeChannel p.2 else none


/-- The named per-entry step of `_handle_targets_update`'s loop (identical to
the fold body of `processEntries`). -/
def entryStep (now : Nat) (acc : Registry × List JVal) (e : Entry) : Registry × List JVal :=
  match getF e "id" with
  | none => acc
  | some tid =>
      let t := match acc.1 tid with
        | some t => t
        | none => mkTarget tid
      let t := t.update_from_data e now
      (fun q => if q = tid then some t else acc.1 q, acc.2 ++ [tid])

/-- The five-entry batch of the batch-notification scenario. -/
def c6Batch : List Entry :=
  [[("id", .jint 1)], [("id", .jint 2)], [("id", .jint 3)],
   [("id", .jint 4)], [("id", .jint 5)]]

/-- A decoded message with no `type` field. -/
def c8NoType : Msg := [("x", TopVal.prim (.jint 1))]

/-- A decoded message with an unrecognized `type` tag. -/
def c8Unknown : Msg := [("type", TopVal.prim (.jstr "future_kind")), ("n", TopVal.prim (.jint 2))]

/-- A targets_update message with one entry. -/
def c8Targets : Msg :=
  [("type", TopVal.prim (.jstr "targets_update")),
   ("targets", TopVal.entries [[("id", .jint 4)]])]

/-- An error message. -/
def c8Error : Msg :=
  [("type", TopVal.prim (.jstr "error")), ("message", TopVal.prim (.jstr "boom"))]


/-- Registry access with lazy creation, as the handler loop performs it. -/
def getT (reg : Registry) (x : JVal) : Target :=
  match reg x with
  | some t => t
  | none => mkTarget x

/-- Sequential application of `update_from_data` for a list of entries. -/
def updList (t : Target) (l : List Entry) (now : Nat) : Target :=
  l.foldl (fun t e => t.update_from_data e now) t

/-- The sub-batch of entries addressed to a given target id. -/
def entriesFor (x : JVal) (entries : List Entry) : List Entry :=
  entries.filter (fun e => getF e "id" == some x)

/-- The value a single entry's channels array writes to channel number `n`
(1-based positional application), if any. -/
def chWrite (e : Entry) (n : Nat) : Option Int :=
  match getF e "channels" with
  | some (.jarr vals) => if 1 ≤ n then vals[n - 1]? else none
  | _ => none

/-- The last channels-array write to channel `n` across an entry list
(later entries win). -/
def chWriteL : List Entry → Nat → Option Int
  | [], _ => none
  | e :: rest, n =>
      match chWriteL rest n with
      | some v => some v
      | none => chWrite e n

/-- The last write of the catch-all custom-data loop of one entry to key `k`
(later pairs win; excluded keys never written). -/
def gWrite : Entry → String → Option JVal
  | [], _ => none
  | p :: rest, k =>
      match gWrite rest k with
      | some v => some v
      | none => if excludedKey p.1 = false ∧ p.1 = k then some p.2 else none

/-- The write of the dedicated name/mac/connection_state copies of one entry
to key `k`, if any. -/
def specialWrite (e : Entry) (k : String) : Option JVal :=
  if k = "name" then getF e "name"
  else if k = "mac" then getF e "mac"
  else if k = "connection_state" then getF e "connection_state"
  else none

/-- The overall last custom-data write of one entry to key `k`: the catch-all
loop runs after the dedicated copies, and the two write disjoint key sets. -/
def cdWrite (e : Entry) (k : String) : Option JVal :=
  match gWrite e k with
  | some v => some v
  | none => specialWrite e k

/-- The last custom-data write to key `k` across an entry list. -/
def cdWriteL : List Entry → String → Option JVal
  | [], _ => none
  | e :: rest, k =>
      match cdWriteL rest k with
      | some v => some v
      | none => cdWrite e k


/-- C2: the merge drops `signal` and `battery` into the custom-data bag and
leaves the named attributes `signal_strength`, `battery_voltage`, `status` at
their defaults: after processing `{id: 3, signal: 80, battery: 7.4}`, target 3
has `signal_strength = 0` (not 80) and `battery_voltage = 0` (not 7.4), while
`custom_data` holds the raw values.  The displayed attributes are therefore
never written by `update_from_data`, contradicting the spec's merge contract. -/
theorem C2_code_behavior :
    (c2Registry (.jint 3)).map (fun t => t.signal_strength) = some 0 ∧
    (c2Registry (.jint 3)).map (fun t => t.battery_voltage) = some 0 ∧
    (c2Registry (.jint 3)).map (fun t => t.status) = some "Unknown" ∧
    (c2Registry (.jint 3)).map (fun t => t.custom_data "signal") = some (some (.jint 80)) ∧
    (c2Registry (.jint 3)).map (fun t => t.custom_data "battery") = some (some (.jdec 74 1)) := by
  refine ⟨by decide, by decide, rfl, by decide, by decide⟩

/-- C3 counterexample: `set_value` does not preserve the continuous-channel
invariant.  The Aileron channel satisfies the invariant at construction, but
`set_value(5000)` stores the raw inbound value 5000, which leaves the value
above `max_value = 2000` with no override recorded. -/
theorem C3_counterexample :
    contInv (mkContinuousChannel "Aileron" 1 1000 2000 1500) ∧
    Channel.set_value (Channel.continuous (mkContinuousChannel "Aileron" 1 1000 2000 1500)) 5000 =
      Channel.continuous { mkContinuousChannel "Aileron" 1 1000 2000 1500 with value := 5000 } ∧
    ¬ contInv { mkContinuousChannel "Aileron" 1 1000 2000 1500 with value := 5000 } :=
  ⟨by decide, rfl, by decide⟩

/-- C3 (amended): the invariant `min_value ≤ value ≤ max_value`, and
`value = default_value` whenever the override is absent, holds at construction
and is preserved by `set_override` and `reset_to_default` (for channels whose
default lies in range, as all constructed channels do); `set_value` is not
invariant-preserving, since it writes the raw telemetry value directly. -/
theorem C3_amended (name : String) (num : Nat) (mn mx df : Int)
    (c : ContinuousChannel) (v : Int)
    (h1 : mn ≤ df) (h2 : df ≤ mx)
    (h3 : c.min_value ≤ c.default_value) (h4 : c.default_value ≤ c.max_value) :
    contInv (mkContinuousChannel name num mn mx df) ∧
    contInv (c.set_override v) ∧
    contInv c.reset_to_default := by
  refine ⟨⟨h1, h2, fun _ => rfl⟩, ⟨le_max_left _ _, ?_, ?_⟩, ⟨h3, h4, fun _ => rfl⟩⟩
  · exact max_le (le_trans h3 h4) (min_le_right _ _)
  · intro h; simp [ContinuousChannel.set_override] at h

/-- Witness for C3 (amended) at the Throttle channel and an out-of-range
override. -/
theorem C3_amended_witness :
    ((1000 : Int) ≤ 1000 ∧ (1000 : Int) ≤ 2000 ∧
      (mkContinuousChannel "Throttle" 3 1000 2000 1000).min_value ≤
        (mkContinuousChannel "Throttle" 3 1000 2000 1000).default_value ∧
      (mkContinuousChannel "Throttle" 3 1000 2000 1000).default_value ≤
        (mkContinuousChannel "Throttle" 3 1000 2000 1000).max_value) ∧
    (contInv (mkContinuousChannel "Throttle" 3 1000 2000 1000) ∧
      contInv ((mkContinuousChannel "Throttle" 3 1000 2000 1000).set_override 9999) ∧
      contInv (mkContinuousChannel "Throttle" 3 1000 2000 1000).reset_to_default) :=
  ⟨⟨by decide, by decide, by decide, by decide⟩,
    C3_amended "Throttle" 3 1000 2000 1000
      (mkContinuousChannel "Throttle" 3 1000 2000 1000) 9999
      (by decide) (by decide) (by decide) (by decide)⟩

/-- C4: for every continuous channel with a well-ordered range and every
integer input, `set_override` leaves the value within
`[min_value, max_value]`, records the override as present, and stores exactly
the input clamped into range. -/
theorem C4_set_override_clamps (c : ContinuousChannel) (v : Int)
    (h : c.min_value ≤ c.max_value) :
    (c.set_override v).min_value ≤ (c.set_override v).value ∧
    (c.set_override v).value ≤ (c.set_override v).max_value ∧
    (c.set_override v).override_value = some (max c.min_value (min v c.max_value)) ∧
    (c.set_override v).value = max c.min_value (min v c.max_value) :=
  ⟨le_max_left _ _, max_le h (min_le_right _ _), rfl, rfl⟩

/-- Witness for C4 at the Elevator channel and an input far below range. -/
theorem C4_witness :
    ((mkContinuousChannel "Elevator" 2 1000 2000 1500).min_value ≤
      (mkContinuousChannel "Elevator" 2 1000 2000 1500).max_value) ∧
    (((mkContinuousChannel "Elevator" 2 1000 2000 1500).set_override (-50)).min_value ≤
        ((mkContinuousChannel "Elevator" 2 1000 2000 1500).set_override (-50)).value ∧
      ((mkContinuousChannel "Elevator" 2 1000 2000 1500).set_override (-50)).value ≤
        ((mkContinuousChannel "Elevator" 2 1000 2000 1500).set_override (-50)).max_value ∧
      ((mkContinuousChannel "Elevator" 2 1000 2000 1500).set_override (-50)).override_value =
        some (max (mkContinuousChannel "Elevator" 2 1000 2000 1500).min_value
          (min (-50) (mkContinuousChannel "Elevator" 2 1000 2000 1500).max_value)) ∧
      ((mkContinuousChannel "Elevator" 2 1000 2000 1500).set_override (-50)).value =
        max (mkContinuousChannel "Elevator" 2 1000 2000 1500).min_value
          (min (-50) (mkContinuousChannel "Elevator" 2 1000 2000 1500).max_value)) :=
  ⟨by decide, C4_set_override_clamps (mkContinuousChannel "Elevator" 2 1000 2000 1500) (-50)
    (by decide)⟩

/-- C9 counterexample: on the Kill channel, which declares only two named
states, `set_state(STATE_3)` is not a no-op: the default-populated state-value
table contains a `STATE_3` entry, so the symbolic state moves from DEFAULT to
STATE_3 and the value from 0 to 2000. -/
theorem C9_counterexample :
    (mkDiscreteChannel "Kill" 6 ["KILLED", "ACTIVE"] []).states.length = 2 ∧
    (mkDiscreteChannel "Kill" 6 ["KILLED", "ACTIVE"] []).state = .DEFAULT ∧
    (mkDiscreteChannel "Kill" 6 ["KILLED", "ACTIVE"] []).value = 0 ∧
    ((mkDiscreteChannel "Kill" 6 ["KILLED", "ACTIVE"] []).set_state .STATE_3).state = .STATE_3 ∧
    ((mkDiscreteChannel "Kill" 6 ["KILLED", "ACTIVE"] []).set_state .STATE_3).value = 2000 := by
  refine ⟨by decide, by decide, by decide, by decide, by decide⟩

/-- C9 (amended): `set_state(s)` is a no-op exactly when `s` has no entry in
the channel's state-value table; since an omitted table is populated with all
four states at construction, `STATE_3` is then accepted even on a channel
declaring only two named states. -/
theorem C9_amended (d : DiscreteChannel) (s : ChannelState) :
    (lookupSV d.state_values s = none → d.set_state s = d) ∧
    (∀ v, lookupSV d.state_values s = some v →
      (d.set_state s).state = s ∧ (d.set_state s).value = v) := by
  constructor
  · intro h; simp [DiscreteChannel.set_state, h]
  · intro v h; simp [DiscreteChannel.set_state, h]

/-- Witness for C9 (amended): a channel constructed with an explicit table
lacking `STATE_3` ignores `set_state(STATE_3)`. -/
theorem C9_amended_witness :
    lookupSV (mkDiscreteChannel "Arm" 5 ["ARMED", "DISARMED"]
        [(.DEFAULT, 0), (.STATE_1, 1000), (.STATE_2, 1500)]).state_values .STATE_3 = none ∧
    (mkDiscreteChannel "Arm" 5 ["ARMED", "DISARMED"]
        [(.DEFAULT, 0), (.STATE_1, 1000), (.STATE_2, 1500)]).set_state .STATE_3 =
      mkDiscreteChannel "Arm" 5 ["ARMED", "DISARMED"]
        [(.DEFAULT, 0), (.STATE_1, 1000), (.STATE_2, 1500)] :=
  ⟨by decide,
    (C9_amended (mkDiscreteChannel "Arm" 5 ["ARMED", "DISARMED"]
      [(.DEFAULT, 0), (.STATE_1, 1000), (.STATE_2, 1500)]) .STATE_3).1 (by decide)⟩

/-- C1 counterexample: with target 3's override armed and channel 6 (Kill) in
STATE_2, the payload maps key "6" to 3 — the `auto()` enum encoding of
STATE_2 — not to the 1500 stored for STATE_2 in the channel's state-value
table. -/
theorem C1_counterexample :
    (target3.get_override_payload).channels "6" = some 3 ∧
    lookupSV (mkDiscreteChannel "Kill" 6 ["KILLED", "ACTIVE"] []).state_values .STATE_2 =
      some 1500 ∧
    (target3.get_override_payload).channels "6" ≠ some 1500 :=
  ⟨by decide, by decide, by decide⟩

theorem payloadStep_eq (acc : String → Option Int) (p : Nat × Channel) :
    payloadStep acc p =
      match encodeChannel p.2 with
      | some v => pcIns acc (toString p.1) v
      | none => acc := by
  obtain ⟨n, ch⟩ := p
  cases ch with
  | discrete d =>
      by_cases h : d.state = ChannelState.DEFAULT <;>
        simp [payloadStep, encodeChannel, h]
  | continuous c =>
      cases h : c.override_value <;> simp [payloadStep, encodeChannel, h]

theorem foldl_payloadStep (l : List (Nat × Channel)) :
    ∀ (f0 : String → Option Int) (s : String),
      (l.foldl payloadStep f0) s =
        match lastHit l s with
        | some v => some v
        | none => f0 s := by
  induction l with
  | nil => intro f0 s; rfl
  | cons p rest ih =>
      intro f0 s
      rw [List.foldl_cons, ih]
      cases hrest : lastHit rest s with
      | some v => simp [lastHit, hrest]
      | none =>
          rw [payloadStep_eq]
          cases henc : encodeChannel p.2 with
          | none =>
              simp only [lastHit, hrest, henc]
              cases hkey : decide (toString p.1 = s) <;> simp_all
          | some v =>
              simp only [lastHit, hrest, henc, pcIns]
              by_cases hkey : toString p.1 = s
              · simp [hkey]
              · rw [if_neg (fun h => hkey h.symm), if_neg hkey]

theorem lastHit_isSome (l : List (Nat × Channel)) (s : String) :
    (lastHit l s).isSome ↔ ∃ p ∈ l, toString p.1 = s ∧ (encodeChannel p.2).isSome := by
  induction l with
  | nil => simp [lastHit]
  | cons p rest ih =>
      cases hrest : lastHit rest s with
      | some v =>
          simp only [lastHit, hrest, Option.isSome_some, true_iff]
          obtain ⟨q, hq, hqs⟩ := ih.mp (by rw [hrest]; rfl)
          exact ⟨q, List.mem_cons_of_mem _ hq, hqs⟩
      | none =>
          simp only [lastHit, hrest]
          constructor
          · intro h
            by_cases hkey : toString p.1 = s
            · rw [if_pos hkey] at h
              exact ⟨p, List.mem_cons_self _ _, hkey, h⟩
            · rw [if_neg hkey] at h
              simp at h
          · rintro ⟨q, hq, hqs, hqe⟩
            rcases List.mem_cons.mp hq with hq | hq
            · subst hq
              rw [if_pos hqs]
              exact hqe
            · exact absurd (ih.mpr ⟨q, hq, hqs, hqe⟩) (by rw [hrest]; simp)

theorem deviates_iff_encode (ch : Channel) :
    deviatesFromDefault ch ↔ (encodeChannel ch).isSome := by
  cases ch with
  | discrete d =>
      by_cases h : d.state = ChannelState.DEFAULT <;>
        simp [deviatesFromDefault, encodeChannel, h]
  | continuous c =>
      cases h : c.override_value <;>
        simp [deviatesFromDefault, encodeChannel, h]

theorem payload_channels_eq (t : Target) :
    (t.get_override_payload).channels =
      if t.override_enabled then t.channels.foldl payloadStep (fun _ => none)
      else fun _ => none := rfl

/-- C5: the override payload's channel map contains exactly the channels that
deviate from default — a key is present iff override is armed and some channel
with that number is a discrete channel in a non-DEFAULT state or a continuous
channel with an override present — and with override disarmed the channel map
is empty regardless of individual channel states. -/
theorem C5_payload_exactly_deviating (t : Target) :
    (t.override_enabled = false → (t.get_override_payload).channels = fun _ => none) ∧
    (∀ s, ((t.get_override_payload).channels s).isSome ↔
      (t.override_enabled = true ∧
        ∃ p ∈ t.channels, toString p.1 = s ∧ deviatesFromDefault p.2)) := by
  constructor
  · intro h
    rw [payload_channels_eq, h, if_neg Bool.false_ne_true]
  · intro s
    rw [payload_channels_eq]
    cases h : t.override_enabled with
    | false =>
        simp
    | true =>
        simp only [if_true, true_and]
        rw [foldl_payloadStep]
        cases hlh : lastHit t.channels s with
        | some v =>
            refine iff_of_true rfl ?_
            obtain ⟨q, hq, hqs, hqe⟩ := (lastHit_isSome t.channels s).mp (by rw [hlh]; rfl)
            exact ⟨q, hq, hqs, (deviates_iff_encode q.2).mpr hqe⟩
        | none =>
            refine iff_of_false (by simp) ?_
            rintro ⟨q, hq, hqs, hqd⟩
            exact absurd ((lastHit_isSome t.channels s).mpr
              ⟨q, hq, hqs, (deviates_iff_encode q.2).mp hqd⟩) (by rw [hlh]; simp)

/-- Witness for C5: a freshly created target with override disarmed has an
empty channel map, and on target 3 the key "6" is present exactly because the
Kill channel deviates. -/
theorem C5_witness :
    ((mkTarget (.jint 1)).get_override_payload).channels = (fun _ => none) ∧
    (((target3.get_override_payload).channels "6").isSome ↔
      (target3.override_enabled = true ∧
        ∃ p ∈ target3.channels, toString p.1 = "6" ∧ deviatesFromDefault p.2)) :=
  ⟨(C5_payload_exactly_deviating (mkTarget (.jint 1))).1 rfl,
    (C5_payload_exactly_deviating target3).2 "6"⟩

theorem lastHit_of_unique (l : List (Nat × Channel)) (n : Nat) (ch : Channel) (v : Int)
    (hmem : (n, ch) ∈ l)
    (huniq : ∀ p ∈ l, toString p.1 = toString n → p = (n, ch))
    (henc : encodeChannel ch = some v) :
    lastHit l (toString n) = some v := by
  induction l with
  | nil => cases hmem
  | cons p rest ih =>
      by_cases hr : (n, ch) ∈ rest
      · have := ih hr (fun q hq hqs => huniq q (List.mem_cons_of_mem _ hq) hqs)
        simp only [lastHit, this]
      · have hp : p = (n, ch) := by
          rcases List.mem_cons.mp hmem with h | h
          · exact h.symm
          · exact absurd h hr
        have hrnone : lastHit rest (toString n) = none := by
          cases hlr : lastHit rest (toString n) with
          | none => rfl
          | some w =>
              obtain ⟨q, hq, hqs, _⟩ :=
                (lastHit_isSome rest (toString n)).mp (by rw [hlr]; rfl)
              exact absurd (huniq q (List.mem_cons_of_mem _ hq) hqs ▸ hq) hr
        simp [lastHit, hrnone, hp, henc]

/-- C1 (amended): with override armed, `get_override_payload` maps a
non-DEFAULT discrete channel's number string to the `auto()` enum encoding of
its symbolic state (`channel.state.value`: DEFAULT 1, STATE_1 2, STATE_2 3,
STATE_3 4), not to the entry of the channel's state-value table; in
particular, for target 3 with channel 6 (Kill) in STATE_2, the payload is
`{id: 3, override: true, channels: {"6": 3}}` with no other channel keys
present. -/
theorem C1_amended :
    (∀ (t : Target) (n : Nat) (d : DiscreteChannel),
      t.override_enabled = true →
      d.state ≠ ChannelState.DEFAULT →
      (n, Channel.discrete d) ∈ t.channels →
      (∀ p ∈ t.channels, toString p.1 = toString n → p = (n, Channel.discrete d)) →
      (t.get_override_payload).channels (toString n) = some d.state.value) ∧
    ((target3.get_override_payload).id = .jint 3 ∧
      (target3.get_override_payload).override = true ∧
      (target3.get_override_payload).channels "6" = some 3 ∧
      ∀ s, s ≠ "6" → (target3.get_override_payload).channels s = none) := by
  constructor
  · intro t n d hov hst hmem huniq
    rw [payload_channels_eq, hov, if_pos rfl, foldl_payloadStep,
      lastHit_of_unique t.channels n (Channel.discrete d) d.state.value hmem huniq
        (by simp [encodeChannel, hst])]
  · refine ⟨by decide, by decide, by decide, ?_⟩
    intro s hs
    rw [payload_channels_eq, if_pos (show target3.override_enabled = true from rfl),
      foldl_payloadStep]
    cases hlh : lastHit target3.channels s with
    | none => rfl
    | some v =>
        obtain ⟨q, hq, hqs, hqe⟩ :=
          (lastHit_isSome target3.channels s).mp (by rw [hlh]; rfl)
        have hkey : ∀ p ∈ target3.channels, (encodeChannel p.2).isSome → p.1 = 6 := by decide
        have h6 : s = "6" := by
          rw [← hqs, hkey q hq hqe]
          decide
        exact absurd h6 hs

/-- Witness for C1 (amended) at target 3, channel 6 in STATE_2. -/
theorem C1_amended_witness :
    (target3.override_enabled = true ∧
      ((mkDiscreteChannel "Kill" 6 ["KILLED", "ACTIVE"] []).set_state .STATE_2).state ≠
        ChannelState.DEFAULT ∧
      (6, Channel.discrete ((mkDiscreteChannel "Kill" 6 ["KILLED", "ACTIVE"] []).set_state
        .STATE_2)) ∈ target3.channels ∧
      (∀ p ∈ target3.channels, toString p.1 = toString 6 →
        p = (6, Channel.discrete ((mkDiscreteChannel "Kill" 6 ["KILLED", "ACTIVE"] []).set_state
          .STATE_2)))) ∧
    (target3.get_override_payload).channels (toString 6) =
      some (((mkDiscreteChannel "Kill" 6 ["KILLED", "ACTIVE"] []).set_state
        .STATE_2).state.value) :=
  ⟨⟨rfl, by decide, by decide, by decide⟩,
    C1_amended.1 target3 6 ((mkDiscreteChannel "Kill" 6 ["KILLED", "ACTIVE"] []).set_state
      .STATE_2) rfl (by decide) (by decide) (by decide)⟩

theorem processEntries_eq (reg : Registry) (entries : List Entry) (now : Nat) :
    processEntries reg entries now = entries.foldl (entryStep now) (reg, []) := rfl

theorem foldl_entryStep_snd (now : Nat) (entries : List Entry) :
    ∀ acc : Registry × List JVal,
      (entries.foldl (entryStep now) acc).2 =
        acc.2 ++ entries.filterMap (fun e => getF e "id") := by
  induction entries with
  | nil => intro acc; simp
  | cons e rest ih =>
      intro acc
      rw [List.foldl_cons, ih]
      cases hid : getF e "id" with
      | none => simp [entryStep, hid]
      | some tid => simp [entryStep, hid]

theorem foldl_entryStep_skip (now : Nat) (entries : List Entry)
    (h : ∀ e ∈ entries, getF e "id" = none) :
    ∀ acc : Registry × List JVal, entries.foldl (entryStep now) acc = acc := by
  induction entries with
  | nil => intro acc; rfl
  | cons e rest ih =>
      intro acc
      rw [List.foldl_cons]
      have he : getF e "id" = none := h e (List.mem_cons_self _ _)
      have hstep : entryStep now acc e = acc := by rw [entryStep, he]
      rw [hstep]
      exact ih (fun q hq => h q (List.mem_cons_of_mem _ hq)) acc

/-- C6: a targets_update batch containing at least one entry with an `id`
field produces exactly one aggregate state-update notification, naming every
target id touched in batch order — never one notification per target. -/
theorem C6_single_aggregate_notification (reg : Registry) (entries : List Entry) (now : Nat)
    (h : ∃ e ∈ entries, (getF e "id").isSome) :
    (handleTargetsUpdateEntries reg entries now).2 =
      [Event.updateAggregate (entries.filterMap (fun e => getF e "id"))] := by
  have hsnd : (processEntries reg entries now).2 =
      entries.filterMap (fun e => getF e "id") := by
    rw [processEntries_eq, foldl_entryStep_snd]
    rfl
  have hne : entries.filterMap (fun e => getF e "id") ≠ [] := by
    obtain ⟨e, he, hid⟩ := h
    intro hemp
    rw [List.filterMap_eq_nil_iff] at hemp
    rw [hemp e he] at hid
    cases hid
  show (if (processEntries reg entries now).2.isEmpty = true then []
    else [Event.updateAggregate (processEntries reg entries now).2]) =
      [Event.updateAggregate (entries.filterMap (fun e => getF e "id"))]
  rw [hsnd]
  simp [hne]

/-- Witness for C6: the five-entry batch yields one notification naming ids
1 through 5. -/
theorem C6_witness :
    (∃ e ∈ c6Batch, (getF e "id").isSome) ∧
    (handleTargetsUpdateEntries (fun _ => none) c6Batch 7).2 =
      [Event.updateAggregate (c6Batch.filterMap (fun e => getF e "id"))] :=
  ⟨by decide, C6_single_aggregate_notification (fun _ => none) c6Batch 7 (by decide)⟩

/-- C10: a batch in which no entry carries an `id` field (in particular the
empty batch) invokes no callback at all — no state-update, no error — and
leaves the registry unchanged. -/
theorem C10_no_id_no_notification (reg : Registry) (entries : List Entry) (now : Nat)
    (h : ∀ e ∈ entries, getF e "id" = none) :
    handleTargetsUpdateEntries reg entries now = (reg, []) := by
  show ((processEntries reg entries now).1,
    if (processEntries reg entries now).2.isEmpty = true then []
    else [Event.updateAggregate (processEntries reg entries now).2]) = (reg, [])
  rw [processEntries_eq, foldl_entryStep_skip now entries h]
  rfl

/-- Witness for C10 at a one-entry batch whose entry has no `id`. -/
theorem C10_witness :
    (∀ e ∈ [[("signal", JVal.jint 5)]], getF e "id" = none) ∧
    handleTargetsUpdateEntries (fun _ => none) [[("signal", JVal.jint 5)]] 3 =
      ((fun _ => none : Registry), []) :=
  ⟨by decide, C10_no_id_no_notification (fun _ => none) [[("signal", JVal.jint 5)]] 3 (by decide)⟩

/-- C8: the dispatcher ignores messages with no `type` field (no handler, no
error callback, registry unchanged), forwards messages with an unrecognized
`type` verbatim to the default update callback, and routes `targets_update`
and `error` to exactly their registered handlers. -/
theorem C8_dispatch (reg : Registry) (data : Msg) (now : Nat) :
    (getFM data "type" = none → process_message reg data now = (reg, [])) ∧
    (∀ tv, getFM data "type" = some tv →
      tv ≠ TopVal.prim (.jstr "targets_update") →
      tv ≠ TopVal.prim (.jstr "error") →
      process_message reg data now = (reg, [Event.updateRaw data])) ∧
    (getFM data "type" = some (TopVal.prim (.jstr "targets_update")) →
      process_message reg data now = handleTargetsUpdate reg data now) ∧
    (getFM data "type" = some (TopVal.prim (.jstr "error")) →
      process_message reg data now = handleError reg data) := by
  refine ⟨?_, ?_, ?_, ?_⟩
  · intro h
    unfold process_message
    rw [h]
  · intro tv h h1 h2
    unfold process_message
    rw [h]
    dsimp only
    rw [if_neg h1, if_neg h2]
  · intro h
    unfold process_message
    rw [h]
    dsimp only
    rw [if_pos rfl]
  · intro h
    unfold process_message
    rw [h]
    dsimp only
    rw [if_neg (by decide), if_pos rfl]

/-- Witness for C8 at four concrete messages: one without a `type` field, one
with an unknown tag, one targets_update, one error. -/
theorem C8_witness :
    (getFM c8NoType "type" = none ∧
      process_message (fun _ => none) c8NoType 0 = ((fun _ => none : Registry), [])) ∧
    (getFM c8Unknown "type" = some (TopVal.prim (.jstr "future_kind")) ∧
      process_message (fun _ => none) c8Unknown 0 =
        ((fun _ => none : Registry), [Event.updateRaw c8Unknown])) ∧
    (getFM c8Targets "type" = some (TopVal.prim (.jstr "targets_update")) ∧
      process_message (fun _ => none) c8Targets 0 =
        handleTargetsUpdate (fun _ => none) c8Targets 0) ∧
    (getFM c8Error "type" = some (TopVal.prim (.jstr "error")) ∧
      process_message (fun _ => none) c8Error 0 = handleError (fun _ => none) c8Error) :=
  ⟨⟨by decide, (C8_dispatch (fun _ => none) c8NoType 0).1 (by decide)⟩,
   ⟨by decide, (C8_dispatch (fun _ => none) c8Unknown 0).2.1
      (TopVal.prim (.jstr "future_kind")) (by decide) (by decide) (by decide)⟩,
   ⟨by decide, (C8_dispatch (fun _ => none) c8Targets 0).2.2.1 (by decide)⟩,
   ⟨by decide, (C8_dispatch (fun _ => none) c8Error 0).2.2.2 (by decide)⟩⟩

theorem set_value_set_value (ch : Channel) (v w : Int) :
    (ch.set_value v).set_value w = ch.set_value w := by
  cases ch <;> rfl

theorem setChannelsAux_eq (vs : List Int) :
    ∀ (chs : List (Nat × Channel)) (i : Nat),
      setChannelsAux chs i vs =
        chs.map (fun p =>
          match vs[p.1 - i]? with
          | some v => if i ≤ p.1 then (p.1, p.2.set_value v) else p
          | none => p) := by
  induction vs with
  | nil =>
      intro chs i
      simp [setChannelsAux]
  | cons v rest ih =>
      intro chs i
      rw [setChannelsAux, ih, List.map_map]
      apply List.map_congr_left
      intro p _
      simp only [Function.comp_apply]
      rcases Nat.lt_trichotomy p.1 i with hlt | heq | hgt
      · have hni : ¬ p.1 = i := Nat.ne_of_lt hlt
        have h0 : p.1 - i = 0 := Nat.sub_eq_zero_of_le (Nat.le_of_lt hlt)
        have h0' : p.1 - (i + 1) = 0 := by omega
        have hle : ¬ i ≤ p.1 := Nat.not_le_of_lt hlt
        have hle1 : ¬ i + 1 ≤ p.1 := by omega
        rw [if_neg hni, h0, h0', List.getElem?_cons_zero]
        cases h1 : rest[(0 : Nat)]? <;> simp [if_neg hle, if_neg hle1]
      · rw [if_pos heq, heq]
        dsimp only
        have e1 : i - (i + 1) = 0 := by omega
        have hle1 : ¬ i + 1 ≤ i := by omega
        rw [e1, Nat.sub_self, List.getElem?_cons_zero]
        cases h1 : rest[(0 : Nat)]? <;> simp [if_neg hle1, set_value_set_value]
      · have hni : ¬ p.1 = i := by omega
        have e2 : p.1 - i = (p.1 - (i + 1)) + 1 := by omega
        have hle : i ≤ p.1 := by omega
        have hle1 : i + 1 ≤ p.1 := by omega
        rw [if_neg hni, e2, List.getElem?_cons_succ]
        cases h1 : rest[p.1 - (i + 1)]? <;> simp [if_pos hle, if_pos hle1]

theorem chOf_eq_map (e : Entry) (chs : List (Nat × Channel)) :
    chOf e chs =
      chs.map (fun p =>
        match chWrite e p.1 with
        | some v => (p.1, p.2.set_value v)
        | none => p) := by
  unfold chOf chWrite
  cases h : getF e "channels" with
  | none => simp
  | some jv =>
      cases jv with
      | jarr vals =>
          dsimp only
          unfold setChannels
          rw [setChannelsAux_eq]
          apply List.map_congr_left
          intro p _
          by_cases h1 : 1 ≤ p.1
          · rw [if_pos h1]
            cases h2 : vals[p.1 - 1]? <;> simp [if_pos h1]
          · have h0 : p.1 - 1 = 0 := by omega
            rw [if_neg h1, h0]
            cases h2 : vals[(0 : Nat)]? <;> simp [if_neg h1]
      | jnull => simp
      | jbool b => simp
      | jint n => simp
      | jdec m x => simp
      | jstr a => simp

theorem updList_channels (l : List Entry) (now : Nat) :
    ∀ t : Target,
      (updList t l now).channels =
        t.channels.map (fun p =>
          match chWriteL l p.1 with
          | some v => (p.1, p.2.set_value v)
          | none => p) := by
  induction l with
  | nil =>
      intro t
      simp [updList, chWriteL]
  | cons e rest ih =>
      intro t
      have hstep : updList t (e :: rest) now = updList (t.update_from_data e now) rest now := rfl
      rw [hstep, ih, Target.update_from_data]
      dsimp only
      rw [chOf_eq_map, List.map_map]
      apply List.map_congr_left
      intro p _
      simp only [Function.comp_apply]
      cases h1 : chWrite e p.1 with
      | none =>
          dsimp only
          cases h2 : chWriteL rest p.1 <;> simp [chWriteL, h1, h2]
      | some v =>
          dsimp only
          cases h2 : chWriteL rest p.1 <;>
            simp [chWriteL, h1, h2, set_value_set_value]

theorem foldl_cdIns (e : Entry) :
    ∀ (cd : String → Option JVal) (k : String),
      (e.foldl (fun cd p => if excludedKey p.1 then cd else cdIns cd p.1 p.2) cd) k =
        match gWrite e k with
        | some v => some v
        | none => cd k := by
  induction e with
  | nil => intro cd k; rfl
  | cons p rest ih =>
      intro cd k
      rw [List.foldl_cons, ih]
      cases hg : gWrite rest k with
      | some v => simp [gWrite, hg]
      | none =>
          simp only [gWrite, hg]
          cases hex : excludedKey p.1 with
          | true => simp [hex]
          | false =>
              by_cases hk : p.1 = k
              · simp [hex, hk, cdIns]
              · simp [hex, hk, cdIns]
                intro h
                exact absurd h.symm hk

theorem cdOf_apply (e : Entry) (cd : String → Option JVal) (k : String) :
    cdOf e cd k =
      match cdWrite e k with
      | some v => some v
      | none => cd k := by
  unfold cdOf cdWrite
  rw [foldl_cdIns]
  cases hg : gWrite e k with
  | some v => rfl
  | none =>
      dsimp only
      unfold specialWrite
      by_cases h1 : k = "name"
      · subst h1
        cases hn : getF e "name" <;> cases hm : getF e "mac" <;>
          cases hc : getF e "connection_state" <;>
            simp +decide [hn, hm, hc, cdIns]
      · by_cases h2 : k = "mac"
        · subst h2
          cases hn : getF e "name" <;> cases hm : getF e "mac" <;>
            cases hc : getF e "connection_state" <;>
              simp +decide [hn, hm, hc, cdIns, h1]
        · by_cases h3 : k = "connection_state"
          · subst h3
            cases hn : getF e "name" <;> cases hm : getF e "mac" <;>
              cases hc : getF e "connection_state" <;>
                simp +decide [hn, hm, hc, cdIns, h1, h2]
          · cases hn : getF e "name" <;> cases hm : getF e "mac" <;>
              cases hc : getF e "connection_state" <;>
                simp [hn, hm, hc, cdIns, h1, h2, h3]

theorem updList_custom_data (l : List Entry) (now : Nat) :
    ∀ (t : Target) (k : String),
      (updList t l now).custom_data k =
        match cdWriteL l k with
        | some v => some v
        | none => t.custom_data k := by
  induction l with
  | nil => intro t k; rfl
  | cons e rest ih =>
      intro t k
      have hstep : updList t (e :: rest) now = updList (t.update_from_data e now) rest now := rfl
      rw [hstep, ih]
      cases hr : cdWriteL rest k with
      | some v => simp [cdWriteL, hr]
      | none =>
          simp only [cdWriteL, hr, Target.update_from_data]
          rw [cdOf_apply]

theorem updList_time (l : List Entry) (now : Nat) :
    ∀ t : Target,
      (updList t l now).last_update_time =
        if l.isEmpty then t.last_update_time else now := by
  induction l with
  | nil => intro t; rfl
  | cons e rest ih =>
      intro t
      have hstep : updList t (e :: rest) now = updList (t.update_from_data e now) rest now := rfl
      rw [hstep, ih]
      cases hr : rest.isEmpty <;> simp [Target.update_from_data]

theorem updList_const (l : List Entry) (now : Nat) :
    ∀ t : Target,
      (updList t l now).id = t.id ∧
      (updList t l now).mac = t.mac ∧
      (updList t l now).override_enabled = t.override_enabled ∧
      (updList t l now).signal_strength = t.signal_strength ∧
      (updList t l now).battery_voltage = t.battery_voltage ∧
      (updList t l now).status = t.status := by
  induction l with
  | nil => intro t; exact ⟨rfl, rfl, rfl, rfl, rfl, rfl⟩
  | cons e rest ih =>
      intro t
      have hstep : updList t (e :: rest) now = updList (t.update_from_data e now) rest now := rfl
      rw [hstep]
      exact ih (t.update_from_data e now)

theorem target_ext (a b : Target)
    (h1 : a.id = b.id) (h2 : a.mac = b.mac) (h3 : a.channels = b.channels)
    (h4 : a.override_enabled = b.override_enabled)
    (h5 : a.last_update_time = b.last_update_time)
    (h6 : a.signal_strength = b.signal_strength)
    (h7 : a.battery_voltage = b.battery_voltage)
    (h8 : a.status = b.status)
    (h9 : a.custom_data = b.custom_data) : a = b := by
  cases a; cases b
  simp_all

theorem updList_absorb (t : Target) (l : List Entry) (n1 n2 : Nat) (hl : l ≠ []) :
    updList (updList t l n1) l n2 = { updList t l n1 with last_update_time := n2 } := by
  have hconst := updList_const l n2 (updList t l n1)
  apply target_ext
  · exact hconst.1
  · exact hconst.2.1
  · rw [updList_channels, updList_channels l n1 t, List.map_map]
    apply List.map_congr_left
    intro p _
    simp only [Function.comp_apply]
    cases hw : chWriteL l p.1 with
    | none => simp [hw]
    | some v => simp [hw, set_value_set_value]
  · exact hconst.2.2.1
  · rw [updList_time]
    simp [List.isEmpty_iff, hl]
  · exact hconst.2.2.2.1
  · exact hconst.2.2.2.2.1
  · exact hconst.2.2.2.2.2
  · funext k
    rw [updList_custom_data]
    cases hw : cdWriteL l k with
    | none => rfl
    | some v =>
        have := updList_custom_data l n1 t k
        rw [hw] at this
        simp [this]

theorem foldl_entryStep_fst (now : Nat) (entries : List Entry) :
    ∀ (acc : Registry × List JVal) (x : JVal),
      (entries.foldl (entryStep now) acc).1 x =
        if entriesFor x entries = [] then acc.1 x
        else some (updList (getT acc.1 x) (entriesFor x entries) now) := by
  induction entries with
  | nil => intro acc x; simp [entriesFor]
  | cons e rest ih =>
      intro acc x
      rw [List.foldl_cons, ih]
      cases hid : getF e "id" with
      | none =>
          have hstep : entryStep now acc e = acc := by rw [entryStep, hid]
          have hfor : entriesFor x (e :: rest) = entriesFor x rest := by
            simp [entriesFor, List.filter_cons, hid]
          rw [hstep, hfor]
      | some tid =>
          have hstep1 : (entryStep now acc e).1 =
              fun q => if q = tid then some ((getT acc.1 tid).update_from_data e now)
              else acc.1 q := by
            rw [entryStep, hid]
            rfl
          by_cases hx : x = tid
          · subst hx
            have hfor : entriesFor x (e :: rest) = e :: entriesFor x rest := by
              simp [entriesFor, List.filter_cons, hid]
            have hacc : (entryStep now acc e).1 x =
                some ((getT acc.1 x).update_from_data e now) := by
              rw [hstep1]; simp
            have hget : getT (entryStep now acc e).1 x =
                (getT acc.1 x).update_from_data e now := by
              rw [getT, hacc]
            rw [hfor]
            by_cases hrest : entriesFor x rest = []
            · rw [if_pos hrest, hacc, hrest, if_neg (List.cons_ne_nil e [])]
              rfl
            · rw [if_neg hrest, if_neg (List.cons_ne_nil e _), hget]
              rfl
          · have hfor : entriesFor x (e :: rest) = entriesFor x rest := by
              simp [entriesFor, List.filter_cons, hid]
              intro h
              exact absurd h.symm hx
            have hacc : (entryStep now acc e).1 x = acc.1 x := by
              rw [hstep1]; simp [hx]
            have hget : getT (entryStep now acc e).1 x = getT acc.1 x := by
              rw [getT, hacc, getT]
            rw [hfor, hacc, hget]

/-- C7: applying the same targets_update batch twice leaves every target's
state — named attributes, channels, custom data — identical to applying it
once; only `last_update_time` may differ.  Stated over the registry with
update timestamps erased. -/
theorem C7_batch_idempotent (reg : Registry) (entries : List Entry) (n1 n2 : Nat) :
    stripReg ((handleTargetsUpdateEntries ((handleTargetsUpdateEntries reg entries n1).1)
        entries n2).1) =
      stripReg ((handleTargetsUpdateEntries reg entries n1).1) := by
  have hfst : ∀ (r : Registry) (n : Nat),
      (handleTargetsUpdateEntries r entries n).1 = (processEntries r entries n).1 :=
    fun r n => rfl
  funext x
  rw [stripReg, stripReg, hfst, hfst]
  have h1 := foldl_entryStep_fst n1 entries (reg, []) x
  have h2 := foldl_entryStep_fst n2 entries ((processEntries reg entries n1).1, []) x
  rw [processEntries_eq reg entries n1] at *
  rw [processEntries_eq _ entries n2]
  by_cases hl : entriesFor x entries = []
  · rw [if_pos hl] at h1 h2
    rw [h1] at h2
    rw [h2, h1]
  · rw [if_neg hl] at h1 h2
    have hget : getT (entries.foldl (entryStep n1) (reg, [])).1 x =
        updList (getT reg x) (entriesFor x entries) n1 := by
      rw [getT, h1]
    rw [h2, h1, hget, updList_absorb _ _ _ _ hl]
    rfl
